import Mathlib

/-!
Verification of the Gemini Watermark Remover (client-side JS, `app.js`).

The definitions below are a shallow embedding of the batch-processing
version of `app.js` (the second, maintained copy in the file).  Machine
bytes are `ℕ` (always kept in `[0,255]` by the clamping in the code),
JavaScript `Number` / `Float32Array` arithmetic on the alpha map is
modelled with `ℚ`, array indices computed with possibly-negative
JavaScript arithmetic are `ℤ`.  Writes and reads of the flat RGBA
`Uint8ClampedArray` outside `[0, 4*width*height)` are modelled as
dropped, matching JavaScript typed-array semantics (an out-of-range
indexed write is discarded; the matching out-of-range read feeds `NaN`
through the arithmetic into that same discarded write).
-/

namespace GWR

/-- `const ALPHA_THRESHOLD = 0.002` (as `mkRat`, so that the kernel can
evaluate comparisons against it). -/
def ALPHA_THRESHOLD : ℚ := mkRat 2 1000

/-- `const MAX_ALPHA = 0.99` -/
def MAX_ALPHA : ℚ := mkRat 99 100

/-- `ALPHA_THRESHOLD` is the rational 0.002. -/
theorem ALPHA_THRESHOLD_eq : ALPHA_THRESHOLD = 2/1000 := by
  rw [ALPHA_THRESHOLD, Rat.mkRat_eq_div]; norm_num

/-- `MAX_ALPHA` is the rational 0.99. -/
theorem MAX_ALPHA_eq : MAX_ALPHA = 99/100 := by
  rw [MAX_ALPHA, Rat.mkRat_eq_div]; norm_num

/-- `const LOGO_VALUE = 255` -/
def LOGO_VALUE : ℚ := 255

/-- `{logoSize, marginRight, marginBottom}` as returned by `detectWatermarkConfig`. -/
structure WatermarkConfig where
  logoSize : ℕ
  marginRight : ℕ
  marginBottom : ℕ
deriving DecidableEq, Repr

/-- `detectWatermarkConfig(imageWidth, imageHeight)` from `app.js`. -/
def detectWatermarkConfig (imageWidth imageHeight : ℕ) : WatermarkConfig :=
  if 1024 < imageWidth ∧ 1024 < imageHeight then
    ⟨96, 64, 64⟩
  else
    ⟨48, 32, 32⟩

/-- The `{x, y, width, height}` object built by `calculateWatermarkPosition`.
`x` and `y` are JavaScript number subtractions, hence `ℤ`. -/
structure WatermarkPosition where
  x : ℤ
  y : ℤ
  width : ℕ
  height : ℕ
deriving DecidableEq, Repr

/-- `calculateWatermarkPosition(imageWidth, imageHeight, config)` from `app.js`. -/
def calculateWatermarkPosition (imageWidth imageHeight : ℕ)
    (config : WatermarkConfig) : WatermarkPosition :=
  { x := (imageWidth : ℤ) - config.marginRight - config.logoSize
    y := (imageHeight : ℤ) - config.marginBottom - config.logoSize
    width := config.logoSize
    height := config.logoSize }

/-- An `ImageData`: `width`, `height` and the flat RGBA byte array `data`.
Only indices `< 4*width*height` are raster bytes. -/
structure ImageData where
  width : ℕ
  height : ℕ
  data : ℕ → ℕ

/-- `Math.round`: round half away from zero towards positive infinity,
which for JavaScript is `⌊x + 1/2⌋`. -/
def mathRound (q : ℚ) : ℤ := ⌊q + 1/2⌋

/-- `Math.max(0, Math.min(255, z))` followed by storage into a byte. -/
def clampByte (z : ℤ) : ℕ := (max 0 (min 255 z)).toNat

/-- One channel of the reverse alpha blending of `removeWatermark`:
`(watermarked - alpha * LOGO_VALUE) / oneMinusAlpha`, rounded and clamped. -/
def invertChannel (alpha : ℚ) (watermarked : ℚ) : ℕ :=
  clampByte (mathRound ((watermarked - alpha * LOGO_VALUE) / (1 - alpha)))

/-- `imageData.data[idx] = clamp(round(original))` for one channel, at flat
index `idx` (an `ℤ`, as computed by the JS index arithmetic).  Out-of-range
writes are dropped, exactly as the typed array drops them. -/
def writeChannel (len : ℕ) (idx : ℤ) (alpha : ℚ) (d : ℕ → ℕ) : ℕ → ℕ :=
  if 0 ≤ idx ∧ idx.toNat < len then
    Function.update d idx.toNat (invertChannel alpha (d idx.toNat))
  else d

/-- The flat base index `((y + row) * imageData.width + (x + col)) * 4`
of the pixel visited at loop counters `(row, col)` of `removeWatermark`. -/
def pixIdx (pos : WatermarkPosition) (W : ℕ) (row col : ℕ) : ℤ :=
  ((pos.y + row) * W + (pos.x + col)) * 4

/-- The body of the two nested loops of `removeWatermark` for one `(row, col)`. -/
def processPixel (W H : ℕ) (alphaMap : ℕ → ℚ) (pos : WatermarkPosition)
    (row col : ℕ) (d : ℕ → ℕ) : ℕ → ℕ :=
  let imgIdx : ℤ := pixIdx pos W row col
  let alphaIdx : ℕ := row * pos.width + col
  let alpha : ℚ := alphaMap alphaIdx
  if alpha < ALPHA_THRESHOLD then d
  else
    let a : ℚ := min alpha MAX_ALPHA
    writeChannel (4 * W * H) (imgIdx + 2) a
      (writeChannel (4 * W * H) (imgIdx + 1) a
        (writeChannel (4 * W * H) (imgIdx + 0) a d))

/-- `removeWatermark(imageData, alphaMap, position)` from `app.js`:
mutates the RGBA data in place over the watermark rectangle. -/
def removeWatermark (img : ImageData) (alphaMap : ℕ → ℚ)
    (pos : WatermarkPosition) : ImageData :=
  { img with
    data :=
      (List.range pos.height).foldl
        (fun d row =>
          (List.range pos.width).foldl
            (fun d col => processPixel img.width img.height alphaMap pos row col d) d)
        img.data }

/-- `calculateAlphaMap(bgCaptureImageData)` from `app.js`:
each alpha is `max(R,G,B) / 255` of the reference capture. -/
def calculateAlphaMap (bg : ImageData) : ℕ → ℚ :=
  fun i => (max (bg.data (i * 4)) (max (bg.data (i * 4 + 1)) (bg.data (i * 4 + 2))) : ℚ) / 255

/-- Membership of an absolute raster pixel `(px, py)` in the watermark rectangle. -/
def inRectPixel (pos : WatermarkPosition) (px py : ℕ) : Prop :=
  pos.x ≤ px ∧ (px : ℤ) < pos.x + pos.width ∧ pos.y ≤ py ∧ (py : ℤ) < pos.y + pos.height

instance (pos : WatermarkPosition) (px py : ℕ) : Decidable (inRectPixel pos px py) :=
  inferInstanceAs (Decidable (pos.x ≤ px ∧ (px : ℤ) < pos.x + pos.width ∧
    pos.y ≤ py ∧ (py : ℤ) < pos.y + pos.height))

/-- C3: the geometry resolver returns the 96/64/64 config iff both dimensions
strictly exceed 1024, and the 48/32/32 config in every other case. -/
theorem detectWatermarkConfig_spec (w h : ℕ) :
    (detectWatermarkConfig w h = ⟨96, 64, 64⟩ ↔ 1024 < w ∧ 1024 < h) ∧
    (¬(1024 < w ∧ 1024 < h) → detectWatermarkConfig w h = ⟨48, 32, 32⟩) := by
  unfold detectWatermarkConfig
  by_cases hc : 1024 < w ∧ 1024 < h
  · simp [hc]
  · simp [hc]

/-- C3 witness: the boundary cases named in the claim, including exactly
1024×1024 and 1025×1024, and a strictly larger image. -/
theorem detectWatermarkConfig_spec_witness :
    detectWatermarkConfig 1024 1024 = ⟨48, 32, 32⟩ ∧
    detectWatermarkConfig 1025 1024 = ⟨48, 32, 32⟩ ∧
    detectWatermarkConfig 1025 1025 = ⟨96, 64, 64⟩ :=
  ⟨(detectWatermarkConfig_spec 1024 1024).2 (by decide),
   (detectWatermarkConfig_spec 1025 1024).2 (by decide),
   (detectWatermarkConfig_spec 1025 1025).1.mpr (by decide)⟩

/-- Folding transformers over a list leaves an index unchanged when every
step leaves it unchanged. -/
theorem foldl_apply_of_forall {α : Type} (L : List α)
    (f : α → (ℕ → ℕ) → (ℕ → ℕ)) (i : ℕ)
    (h : ∀ a ∈ L, ∀ d, f a d i = d i) :
    ∀ d, (L.foldl (fun d a => f a d) d) i = d i := by
  induction L with
  | nil => intro d; rfl
  | cons b L ih =>
      intro d
      rw [List.foldl_cons]
      rw [ih (fun a ha d => h a (List.mem_cons_of_mem b ha) d)]
      exact h b (List.mem_cons_self b L) d

/-- Folding transformers over `List.range n` at an index that exactly one
loop iteration `k` rewrites (by `g` applied to the old value) yields `g` of
the old value. -/
theorem foldl_range_hit (n k : ℕ) (hk : k < n)
    (f : ℕ → (ℕ → ℕ) → (ℕ → ℕ)) (i : ℕ) (g : ℕ → ℕ)
    (hmiss : ∀ a, a < n → a ≠ k → ∀ d, f a d i = d i)
    (hhit : ∀ d, f k d i = g (d i)) :
    ∀ d, ((List.range n).foldl (fun d a => f a d) d) i = g (d i) := by
  induction n with
  | zero => omega
  | succ m ih =>
      intro d
      rw [List.range_succ, List.foldl_append, List.foldl_cons, List.foldl_nil]
      rcases Nat.lt_or_ge k m with hkm | hkm
      · rw [hmiss m (by omega) (by omega)]
        exact ih hkm (fun a ha hne d => hmiss a (by omega) hne d) d
      · have hkm' : k = m := by omega
        subst hkm'
        rw [hhit]
        rw [foldl_apply_of_forall _ _ i
          (fun a ha d => hmiss a (by simp at ha; omega) (by simp at ha; omega) d)]

/-- Injectivity of the row-major pixel index: if two in-row offsets agree
modulo a full row, rows and columns agree. -/
theorem row_col_inj (W a b r s : ℤ) (ha : 0 ≤ a) (haW : a < W)
    (hb : 0 ≤ b) (hbW : b < W) (h : r * W + a = s * W + b) :
    r = s ∧ a = b := by
  have h1 : (r - s) * W = b - a := by ring_nf; linarith
  have hrs : r = s := by
    rcases lt_trichotomy r s with hlt | heq | hgt
    · exfalso
      have h2 : r - s ≤ -1 := by omega
      have h3 : (r - s) * W ≤ -1 * W :=
        mul_le_mul_of_nonneg_right h2 (by linarith)
      have h4 : -1 * W = -W := by ring
      linarith
    · exact heq
    · exfalso
      have h2 : (1 : ℤ) ≤ r - s := by omega
      have h3 : 1 * W ≤ (r - s) * W :=
        mul_le_mul_of_nonneg_right h2 (by linarith)
      have h4 : (1 : ℤ) * W = W := by ring
      linarith
  refine ⟨hrs, ?_⟩
  subst hrs
  linarith

/-- A channel write leaves every other index unchanged. -/
theorem writeChannel_apply_ne (len : ℕ) (idx : ℤ) (alpha : ℚ) (d : ℕ → ℕ)
    (i : ℕ) (h : (i : ℤ) ≠ idx) : writeChannel len idx alpha d i = d i := by
  unfold writeChannel
  split
  · rename_i hc
    have hne : i ≠ idx.toNat := by omega
    simp [Function.update_apply, hne]
  · rfl

/-- An in-range channel write stores the inverted value at its own index. -/
theorem writeChannel_apply_eq (len : ℕ) (idx : ℤ) (alpha : ℚ) (d : ℕ → ℕ)
    (i : ℕ) (h0 : (i : ℤ) = idx) (hlen : i < len) :
    writeChannel len idx alpha d i = invertChannel alpha (d i) := by
  have h1 : 0 ≤ idx := by omega
  have h2 : idx.toNat = i := by omega
  unfold writeChannel
  rw [if_pos ⟨h1, by omega⟩, h2]
  simp [Function.update_apply]

/-- A loop iteration of `removeWatermark` leaves a raster byte unchanged
unless that byte is an RGB channel of this very iteration's pixel. -/
theorem processPixel_apply_miss (W H : ℕ) (am : ℕ → ℚ) (pos : WatermarkPosition)
    (row col px py c : ℕ) (d : ℕ → ℕ)
    (hx : 0 ≤ pos.x) (hxw : pos.x + pos.width ≤ (W : ℤ)) (hpx : px < W)
    (hcol : col < pos.width) (hc : c < 4)
    (hne : ¬(c < 3 ∧ pos.y + row = (py : ℤ) ∧ pos.x + col = (px : ℤ))) :
    processPixel W H am pos row col d (4 * (py * W + px) + c)
      = d (4 * (py * W + px) + c) := by
  have hneIdx : ∀ c' : ℤ, 0 ≤ c' → c' < 3 →
      ((4 * (py * W + px) + c : ℕ) : ℤ) ≠ pixIdx pos W row col + c' := by
    intro c' hc0 hc3 heq
    rw [pixIdx] at heq
    have heq' : 4 * ((py : ℤ) * W + px) + c
        = 4 * ((pos.y + row) * W + (pos.x + col)) + c' := by
      push_cast at heq
      linarith
    set P : ℤ := (py : ℤ) * W + px with hP
    set Q : ℤ := (pos.y + row) * W + (pos.x + col) with hQ
    have hPQ : P = Q ∧ (c : ℤ) = c' := by omega
    have hinj := row_col_inj (W : ℤ) (px : ℤ) (pos.x + col) (py : ℤ) (pos.y + row)
      (by positivity) (by exact_mod_cast hpx) (by omega) (by omega)
      (by rw [← hP, ← hQ]; exact hPQ.1)
    exact hne ⟨by omega, hinj.1.symm, hinj.2.symm⟩
  simp only [processPixel]
  split
  · rfl
  · rw [writeChannel_apply_ne _ _ _ _ _ (hneIdx 2 (by omega) (by omega)),
        writeChannel_apply_ne _ _ _ _ _ (hneIdx 1 (by omega) (by omega)),
        writeChannel_apply_ne _ _ _ _ _ (hneIdx 0 (by omega) (by omega))]

/-- The loop iteration of `removeWatermark` that owns an in-rectangle pixel
rewrites each of its RGB bytes to the inverted value, provided the alpha is
not below the threshold and the rectangle lies inside the raster. -/
theorem processPixel_apply_hit (W H : ℕ) (am : ℕ → ℚ) (pos : WatermarkPosition)
    (row col px py c : ℕ) (d : ℕ → ℕ)
    (hx : 0 ≤ pos.x) (hy : 0 ≤ pos.y)
    (hxw : pos.x + pos.width ≤ (W : ℤ)) (hyh : pos.y + pos.height ≤ (H : ℤ))
    (hrow : row < pos.height) (hcol : col < pos.width)
    (hpyx : pos.y + row = (py : ℤ)) (hpxx : pos.x + col = (px : ℤ)) (hc : c < 3)
    (halpha : ¬ am (row * pos.width + col) < ALPHA_THRESHOLD) :
    processPixel W H am pos row col d (4 * (py * W + px) + c)
      = invertChannel (min (am (row * pos.width + col)) MAX_ALPHA)
          (d (4 * (py * W + px) + c)) := by
  have hpix : pixIdx pos W row col = 4 * ((py : ℤ) * W + px) := by
    rw [pixIdx, hpyx, hpxx]; ring
  have hiz : ((4 * (py * W + px) + c : ℕ) : ℤ) = pixIdx pos W row col + c := by
    rw [hpix]; push_cast; ring
  have hpxW : px < W := by omega
  have hpyH : py < H := by omega
  have hsz : py * W + px < W * H := by
    calc py * W + px < py * W + W := by omega
      _ = (py + 1) * W := by ring
      _ ≤ H * W := Nat.mul_le_mul_right W (by omega)
      _ = W * H := Nat.mul_comm H W
  have hlen : 4 * (py * W + px) + c < 4 * W * H := by
    have h4 : 4 * (py * W + px) + 4 ≤ 4 * (W * H) := by omega
    have : 4 * (W * H) = 4 * W * H := by ring
    omega
  simp only [processPixel]
  rw [if_neg halpha]
  interval_cases c
  · rw [writeChannel_apply_ne _ _ _ _ _ (by rw [hiz]; omega),
        writeChannel_apply_ne _ _ _ _ _ (by rw [hiz]; omega),
        writeChannel_apply_eq _ _ _ _ _ (by rw [hiz]; push_cast; ring) hlen]
  · rw [writeChannel_apply_ne _ _ _ _ _ (by rw [hiz]; omega),
        writeChannel_apply_eq _ _ _ _ _ (by rw [hiz]; push_cast; ring) hlen,
        writeChannel_apply_ne _ _ _ _ _ (by rw [hiz]; omega)]
  · rw [writeChannel_apply_eq _ _ _ _ _ (by rw [hiz]; push_cast; ring) hlen,
        writeChannel_apply_ne _ _ _ _ _ (by rw [hiz]; omega),
        writeChannel_apply_ne _ _ _ _ _ (by rw [hiz]; omega)]

/-- C1 (amended: for watermark rectangles lying fully inside the raster):
`removeWatermark` rewrites exactly the RGB channels (`c < 3`) of the raster
pixels inside the rectangle whose alpha-map value is at least
`ALPHA_THRESHOLD` — replacing the channel by the inverse composite with the
alpha clamped to `MAX_ALPHA`, rounded to nearest and clamped to `[0,255]` —
and leaves every alpha channel (`c = 3`), every below-threshold pixel and
every pixel outside the rectangle unchanged. -/
theorem removeWatermark_pixel_spec (img : ImageData) (am : ℕ → ℚ)
    (pos : WatermarkPosition)
    (hx : 0 ≤ pos.x) (hy : 0 ≤ pos.y)
    (hxw : pos.x + pos.width ≤ (img.width : ℤ))
    (hyh : pos.y + pos.height ≤ (img.height : ℤ))
    (px py c : ℕ) (hpx : px < img.width) (hpy : py < img.height) (hc : c < 4) :
    (removeWatermark img am pos).data (4 * (py * img.width + px) + c) =
      if c < 3 ∧ inRectPixel pos px py ∧
          ¬ am (((py : ℤ) - pos.y).toNat * pos.width + ((px : ℤ) - pos.x).toNat)
              < ALPHA_THRESHOLD then
        invertChannel
          (min (am (((py : ℤ) - pos.y).toNat * pos.width + ((px : ℤ) - pos.x).toNat))
            MAX_ALPHA)
          (img.data (4 * (py * img.width + px) + c))
      else img.data (4 * (py * img.width + px) + c) := by
  simp only [removeWatermark]
  by_cases hcond : c < 3 ∧ inRectPixel pos px py ∧
      ¬ am (((py : ℤ) - pos.y).toNat * pos.width + ((px : ℤ) - pos.x).toNat)
        < ALPHA_THRESHOLD
  · rw [if_pos hcond]
    obtain ⟨hc3, hinr, hα⟩ := hcond
    obtain ⟨hr1, hr2, hr3, hr4⟩ := hinr
    refine foldl_range_hit pos.height (((py : ℤ) - pos.y).toNat) (by omega) _ _
      (fun v => invertChannel
        (min (am (((py : ℤ) - pos.y).toNat * pos.width + ((px : ℤ) - pos.x).toNat))
          MAX_ALPHA) v) ?_ ?_ img.data
    · intro r hrn hrne d
      refine foldl_apply_of_forall _ _ _ ?_ d
      intro col hcolmem d'
      have hcoln : col < pos.width := List.mem_range.mp hcolmem
      exact processPixel_apply_miss img.width img.height am pos r col px py c d'
        hx hxw hpx hcoln hc (by rintro ⟨h1, h2, h3⟩; omega)
    · intro d
      refine foldl_range_hit pos.width (((px : ℤ) - pos.x).toNat) (by omega) _ _
        (fun v => invertChannel
          (min (am (((py : ℤ) - pos.y).toNat * pos.width + ((px : ℤ) - pos.x).toNat))
            MAX_ALPHA) v) ?_ ?_ d
      · intro col hcoln hcolne d'
        exact processPixel_apply_miss img.width img.height am pos _ col px py c d'
          hx hxw hpx hcoln hc (by rintro ⟨h1, h2, h3⟩; omega)
      · intro d'
        exact processPixel_apply_hit img.width img.height am pos _ _ px py c d'
          hx hy hxw hyh (by omega) (by omega) (by omega) (by omega) hc3 hα
  · rw [if_neg hcond]
    refine foldl_apply_of_forall _ _ _ ?_ img.data
    intro r hrmem d
    have hrn : r < pos.height := List.mem_range.mp hrmem
    refine foldl_apply_of_forall _ _ _ ?_ d
    intro col hcolmem d'
    have hcoln : col < pos.width := List.mem_range.mp hcolmem
    by_cases hm : pos.y + r = (py : ℤ) ∧ pos.x + col = (px : ℤ)
    · have hinr : inRectPixel pos px py := ⟨by omega, by omega, by omega, by omega⟩
      have hidx1 : ((py : ℤ) - pos.y).toNat = r := by omega
      have hidx2 : ((px : ℤ) - pos.x).toNat = col := by omega
      by_cases hc3 : c < 3
      · have hα : am (r * pos.width + col) < ALPHA_THRESHOLD := by
          by_contra hno
          rw [← hidx1, ← hidx2] at hno
          exact hcond ⟨hc3, hinr, hno⟩
        simp only [processPixel]
        rw [if_pos hα]
      · exact processPixel_apply_miss img.width img.height am pos r col px py c d'
          hx hxw hpx hcoln hc (by rintro ⟨h1, h2, h3⟩; omega)
    · exact processPixel_apply_miss img.width img.height am pos r col px py c d'
        hx hxw hpx hcoln hc (by rintro ⟨h1, h2, h3⟩; exact hm ⟨h2, h3⟩)

/-- A 1×1 raster with every byte 200, used to instantiate C1. -/
def imgW1 : ImageData := ⟨1, 1, fun _ => 200⟩

/-- A constant 1/2 alpha map, used to instantiate C1. -/
def amHalf : ℕ → ℚ := fun _ => mkRat 1 2

/-- The in-bounds 1×1 watermark rectangle at the origin. -/
def posW1 : WatermarkPosition := ⟨0, 0, 1, 1⟩

/-- C1 witness: on a 1×1 raster of 200-bytes under a 1/2 alpha, the red
channel of the single in-rectangle pixel becomes `(200 - 127.5)/0.5 = 145`. -/
theorem removeWatermark_pixel_spec_witness :
    (removeWatermark imgW1 amHalf posW1).data 0 = 145 := by
  have h := removeWatermark_pixel_spec imgW1 amHalf posW1 (by decide) (by decide)
    (by decide) (by decide) 0 0 0 (by decide) (by decide) (by decide)
  norm_num [inRectPixel, posW1, amHalf, imgW1, ALPHA_THRESHOLD_eq, MAX_ALPHA_eq,
    Rat.mkRat_eq_div, invertChannel, mathRound, clampByte, LOGO_VALUE, min_def] at h
  exact h

/-- A 2×2 raster with every byte 100. -/
def imgC2 : ImageData := ⟨2, 2, fun _ => 100⟩

/-- A watermark rectangle sticking out of the right edge of `imgC2`:
`x = 1`, `width = 2` on a raster of width 2. -/
def posC2 : WatermarkPosition := ⟨1, 0, 2, 1⟩

/-- C1 counterexample: for a rectangle not fully inside the raster the claim
fails — the flat row-major index wraps, and `removeWatermark` mutates byte
`8`, the red channel of pixel `(0,1)`, a pixel *outside* the rectangle
(it changes from 100 to 0). -/
theorem removeWatermark_mutates_outside_rect :
    (removeWatermark imgC2 amHalf posC2).data (4 * (1 * imgC2.width + 0) + 0) = 0 ∧
    imgC2.data (4 * (1 * imgC2.width + 0) + 0) = 100 ∧
    ¬ inRectPixel posC2 0 1 := by
  refine ⟨?_, rfl, by decide⟩
  show (removeWatermark imgC2 amHalf posC2).data 8 = 0
  have hstep : (removeWatermark imgC2 amHalf posC2).data 8
      = processPixel imgC2.width imgC2.height amHalf posC2 0 1
          (processPixel imgC2.width imgC2.height amHalf posC2 0 0 imgC2.data) 8 := rfl
  have hinner : processPixel imgC2.width imgC2.height amHalf posC2 0 0 imgC2.data 8
      = 100 := by
    simp only [processPixel, pixIdx, posC2, imgC2]
    rw [if_neg (by decide)]
    rw [writeChannel_apply_ne _ _ _ _ _ (by decide),
        writeChannel_apply_ne _ _ _ _ _ (by decide),
        writeChannel_apply_ne _ _ _ _ _ (by decide)]
  have houter : ∀ d : ℕ → ℕ,
      processPixel imgC2.width imgC2.height amHalf posC2 0 1 d 8
        = invertChannel (min (mkRat 1 2) MAX_ALPHA) (d 8) := by
    intro d
    simp only [processPixel, pixIdx, posC2, imgC2]
    rw [if_neg (by decide)]
    rw [writeChannel_apply_ne _ _ _ _ _ (by decide),
        writeChannel_apply_ne _ _ _ _ _ (by decide),
        writeChannel_apply_eq _ _ _ _ _ (by decide) (by decide)]
    rfl
  rw [hstep, houter, hinner]
  rw [MAX_ALPHA_eq, Rat.mkRat_eq_div]
  norm_num [invertChannel, mathRound, clampByte, LOGO_VALUE, min_def]

/-- C4 (amended: the in-bounds geometry part): for every image whose
dimensions are at least `logoSize + margin` of the resolved config, the
watermark rectangle of `calculateWatermarkPosition` lies fully within the
raster bounds. -/
theorem watermarkRect_in_bounds (w h : ℕ)
    (hw : (detectWatermarkConfig w h).logoSize
        + (detectWatermarkConfig w h).marginRight ≤ w)
    (hh : (detectWatermarkConfig w h).logoSize
        + (detectWatermarkConfig w h).marginBottom ≤ h) :
    0 ≤ (calculateWatermarkPosition w h (detectWatermarkConfig w h)).x ∧
    0 ≤ (calculateWatermarkPosition w h (detectWatermarkConfig w h)).y ∧
    (calculateWatermarkPosition w h (detectWatermarkConfig w h)).x
      + (calculateWatermarkPosition w h (detectWatermarkConfig w h)).width ≤ (w : ℤ) ∧
    (calculateWatermarkPosition w h (detectWatermarkConfig w h)).y
      + (calculateWatermarkPosition w h (detectWatermarkConfig w h)).height ≤ (h : ℤ) := by
  simp only [calculateWatermarkPosition]
  refine ⟨by omega, by omega, by omega, by omega⟩

/-- C4 witness: a 100×100 image resolves to the 48/32 config and its
rectangle `(20, 20) .. (68, 68)` is inside the raster. -/
theorem watermarkRect_in_bounds_witness :
    0 ≤ (calculateWatermarkPosition 100 100 (detectWatermarkConfig 100 100)).x ∧
    0 ≤ (calculateWatermarkPosition 100 100 (detectWatermarkConfig 100 100)).y ∧
    (calculateWatermarkPosition 100 100 (detectWatermarkConfig 100 100)).x
      + (calculateWatermarkPosition 100 100 (detectWatermarkConfig 100 100)).width
        ≤ (100 : ℤ) ∧
    (calculateWatermarkPosition 100 100 (detectWatermarkConfig 100 100)).y
      + (calculateWatermarkPosition 100 100 (detectWatermarkConfig 100 100)).height
        ≤ (100 : ℤ) :=
  watermarkRect_in_bounds 100 100 (by decide) (by decide)

/-- Modelled from the spec: the spec demands that rectangle pixels outside
the raster bounds be treated as a programming error (fatal assert), never
silently clamped or processed.  `app.js` contains no such check, so the
demanded assert is modelled as `none` whenever the rectangle is not fully
inside the raster. -/
def removeWatermarkChecked (img : ImageData) (am : ℕ → ℚ)
    (pos : WatermarkPosition) : Option ImageData :=
  if 0 ≤ pos.x ∧ 0 ≤ pos.y ∧ pos.x + pos.width ≤ (img.width : ℤ) ∧
      pos.y + pos.height ≤ (img.height : ℤ) then
    some (removeWatermark img am pos)
  else none

/-- A 1×1 raster with every byte 5, fed through the real geometry pipeline. -/
def imgT1 : ImageData := ⟨1, 1, fun _ => 5⟩

/-- The watermark rectangle the pipeline computes for a 1×1 image:
`x = y = -79`, entirely outside the raster. -/
def posT1 : WatermarkPosition := calculateWatermarkPosition 1 1 (detectWatermarkConfig 1 1)

/-- A channel write whose index is negative is dropped entirely. -/
theorem writeChannel_neg (len : ℕ) (idx : ℤ) (alpha : ℚ) (d : ℕ → ℕ)
    (h : idx < 0) : writeChannel len idx alpha d = d := by
  unfold writeChannel
  rw [if_neg (by omega)]

/-- A loop iteration of `removeWatermark` whose three channel indices are
all negative changes nothing: every write is dropped. -/
theorem processPixel_apply_oob (W H : ℕ) (am : ℕ → ℚ) (pos : WatermarkPosition)
    (row col : ℕ) (h : pixIdx pos W row col + 2 < 0) (d : ℕ → ℕ) :
    processPixel W H am pos row col d = d := by
  simp only [processPixel]
  split
  · rfl
  · rw [writeChannel_neg _ _ _ _ (by omega),
        writeChannel_neg _ _ _ _ (by omega),
        writeChannel_neg _ _ _ _ (by omega)]

/-- C4 counterexample: on a 1×1 image the computed rectangle lies outside
the raster, yet `removeWatermark` performs no assert — it silently proceeds
(every out-of-range write is dropped, so the data is returned unchanged),
whereas the assert the claim demands (modelled by `removeWatermarkChecked`)
would be a fatal error (`none`). -/
theorem removeWatermark_proceeds_without_assert :
    (removeWatermark imgT1 amHalf posT1).data = imgT1.data ∧
    removeWatermarkChecked imgT1 amHalf posT1 = none ∧
    ¬ (0 ≤ posT1.x) := by
  have hpos : posT1 = ⟨-79, -79, 48, 48⟩ := by decide
  refine ⟨?_, ?_, by decide⟩
  · rw [hpos]
    simp only [removeWatermark]
    funext i
    refine foldl_apply_of_forall _ _ _ ?_ imgT1.data
    intro row hrow d
    refine foldl_apply_of_forall _ _ _ ?_ d
    intro col hcol d'
    have hr : row < 48 := List.mem_range.mp hrow
    have hcl : col < 48 := List.mem_range.mp hcol
    have hoob : pixIdx ⟨-79, -79, 48, 48⟩ imgT1.width row col + 2 < 0 := by
      have hW : imgT1.width = 1 := rfl
      rw [pixIdx, hW]
      push_cast
      omega
    rw [processPixel_apply_oob _ _ _ _ _ _ hoob]
  · simp only [removeWatermarkChecked]
    rw [if_neg (by decide)]

/-- The forward alpha composite presumed by the remover:
`watermarked = a*255 + (1-a)*x` over a white (255) logo. -/
def forwardComposite (a : ℚ) (x : ℕ) : ℚ := a * 255 + (1 - a) * x

/-- C2: for every alpha `a` in `[0.002, 0.99]` and channel value `x` in
`[0,255]`, the remover's inverse formula (as executed by `removeWatermark`,
including its `Math.min(alpha, MAX_ALPHA)` clamp) applied to the forward
composite `a*255 + (1-a)*x` recovers `x` within ±1.  (It in fact recovers
`x` exactly; the proof goes through the exact value.) -/
theorem roundTrip_recovers (a : ℚ) (x : ℕ)
    (ha₀ : ALPHA_THRESHOLD ≤ a) (ha₁ : a ≤ MAX_ALPHA) (hx : x ≤ 255) :
    ((invertChannel (min a MAX_ALPHA) (forwardComposite a x) : ℤ) - x).natAbs ≤ 1 := by
  have ha₀' : (2 : ℚ)/1000 ≤ a := by rw [ALPHA_THRESHOLD_eq] at ha₀; exact ha₀
  have ha₁' : a ≤ 99/100 := by rw [MAX_ALPHA_eq] at ha₁; exact ha₁
  have hmin : min a MAX_ALPHA = a := min_eq_left ha₁
  have hne : (1 : ℚ) - a ≠ 0 := by
    intro h
    have : a = 1 := by linarith
    rw [this] at ha₁'
    norm_num at ha₁'
  have hdiv : (forwardComposite a x - a * LOGO_VALUE) / (1 - a) = (x : ℚ) := by
    rw [forwardComposite, LOGO_VALUE]
    field_simp
  have hfloor : mathRound ((x : ℚ)) = (x : ℤ) := by
    rw [mathRound]
    exact Int.floor_eq_iff.mpr ⟨by push_cast; linarith, by push_cast; linarith⟩
  have hclamp : clampByte ((x : ℤ)) = x := by
    rw [clampByte]
    have h1 : min 255 (x : ℤ) = (x : ℤ) := by
      apply min_eq_right; exact_mod_cast hx
    rw [h1]
    have h2 : max 0 (x : ℤ) = (x : ℤ) := max_eq_right (by positivity)
    rw [h2, Int.toNat_natCast]
  rw [hmin, invertChannel, hdiv, hfloor, hclamp]
  simp

/-- C2 witness: round trip at `a = 1/2`, `x = 100`. -/
theorem roundTrip_recovers_witness :
    ((invertChannel (min (1/2) MAX_ALPHA) (forwardComposite (1/2) 100) : ℤ) - 100).natAbs ≤ 1 :=
  roundTrip_recovers (1/2) 100 (by rw [ALPHA_THRESHOLD_eq]; norm_num)
    (by rw [MAX_ALPHA_eq]; norm_num) (by norm_num)

/-- Whether `pat` occurs at the head of the character list. -/
def matchesAt : List Char → List Char → Bool
  | [], _ => true
  | _ :: _, [] => false
  | p :: ps, c :: cs => p == c && matchesAt ps cs

/-- Whether `pat` occurs anywhere in the character list (an unanchored
regular-expression literal test). -/
def hasSub (pat : List Char) : List Char → Bool
  | [] => pat.isEmpty
  | c :: cs => matchesAt pat (c :: cs) || hasSub pat cs

/-- Unanchored substring test on strings, the JS `/pat/.test(s)`. -/
def strHas (pat s : String) : Bool := hasSub pat.toList s.toList

/-- Lower-casing, for the JS case-insensitive `/pat/i.test(s)`. -/
def lowerStr (s : String) : String := s.map Char.toLower

/-- A file-like object as consumed from the UI: a name and a MIME type. -/
structure JSFile where
  name : String
  type : String
deriving DecidableEq, Repr

/-- `isSupportedImageFile(file)` from `app.js`: the unanchored regex
`/image\/(png|jpeg|webp)/.test(file.type)`. -/
def isSupportedImageFile (file : JSFile) : Bool :=
  strHas "image/png" file.type || strHas "image/jpeg" file.type ||
    strHas "image/webp" file.type

/-- The `item.status` strings of `app.js` (`"queued"`, `"completed"`,
`"error"`). -/
inductive ItemStatus
  | queued
  | completed
  | error
deriving DecidableEq, Repr

/-- A `batchItems` entry as built by `handleFiles` (ids modelled away;
decoded images, blobs and blob URLs are opaque handles). -/
structure BatchItem where
  file : JSFile
  name : String
  status : ItemStatus
  originalImg : Option ℕ
  resultBlob : Option ℕ
  resultUrl : Option ℕ
deriving DecidableEq, Repr

/-- The fresh item `handleFiles` builds per supported file. -/
def mkBatchItem (file : JSFile) : BatchItem :=
  { file := file
    name := file.name
    status := ItemStatus.queued
    originalImg := none
    resultBlob := none
    resultUrl := none }

/-- Outcome of the validation phase of `handleFiles`: an early return with
a user-visible error (before any `batchItems` are created), or the freshly
created batch. -/
inductive HandleFilesResult
  | rejected (message : String)
  | accepted (items : List BatchItem)
deriving DecidableEq, Repr

/-- The validation-and-creation phase of `handleFiles(files)` from
`app.js`: filter to supported images, reject empty or oversized batches
with the code's error messages, otherwise create one queued item per file. -/
def handleFilesModel (files : List JSFile) : HandleFilesResult :=
  let onlyImages := files.filter (fun f => isSupportedImageFile f)
  if onlyImages.length = 0 then
    HandleFilesResult.rejected "Please upload PNG, JPG, or WebP images."
  else if 10 < onlyImages.length then
    HandleFilesResult.rejected "Please upload 10 images or fewer."
  else
    HandleFilesResult.accepted (onlyImages.map mkBatchItem)

/-- C5: a submitted file list is rejected with a user-visible error and no
items created iff the count of supported images is 0 or exceeds 10; a batch
of exactly 10 supported files proceeds, creating one queued item per
supported file. -/
theorem handleFiles_spec (files : List JSFile) :
    ((∃ m, handleFilesModel files = HandleFilesResult.rejected m) ↔
      ((files.filter (fun f => isSupportedImageFile f)).length = 0 ∨
        10 < (files.filter (fun f => isSupportedImageFile f)).length)) ∧
    ((files.filter (fun f => isSupportedImageFile f)).length = 10 →
      handleFilesModel files = HandleFilesResult.accepted
        ((files.filter (fun f => isSupportedImageFile f)).map mkBatchItem)) := by
  unfold handleFilesModel
  by_cases h0 : (files.filter (fun f => isSupportedImageFile f)).length = 0
  · simp [h0]
  · by_cases h10 : 10 < (files.filter (fun f => isSupportedImageFile f)).length
    · simp [h0, h10]
      omega
    · simp [h0, h10]

/-- A supported PNG file for the C5 witness. -/
def pngFile : JSFile := ⟨ "a.png" , "image/png" ⟩

/-- C5 witness: ten supported files are accepted as ten queued items, and
an empty submission is rejected. -/
theorem handleFiles_spec_witness :
    handleFilesModel (List.replicate 10 pngFile) = HandleFilesResult.accepted
      (((List.replicate 10 pngFile).filter
        (fun f => isSupportedImageFile f)).map mkBatchItem) ∧
    (∃ m, handleFilesModel [] = HandleFilesResult.rejected m) :=
  ⟨(handleFiles_spec (List.replicate 10 pngFile)).2 (by decide),
   (handleFiles_spec []).1.mpr (Or.inl (by decide))⟩

/-- `explainError(err)` from `app.js`: two case-insensitive unanchored
regex tests over the error message, with the code's three explanations. -/
def explainError (msg : String) : String :=
  let m := lowerStr msg
  if strHas "getimagedata" m || strHas "securityerror" m ||
      strHas "tainted" m || strHas "origin-clean" m then
    "Your browser blocked canvas pixel access (often caused by privacy/canvas protection extensions).\nTry disabling extensions like Canvas Fingerprint Defender (or similar), then refresh and try again."
  else if (strHas "bg_48.png" m || strHas "bg_96.png" m ||
      strHas "load" m || strHas "image" m) &&
      (strHas "failed" m || strHas "error" m) then
    "The watermark map images failed to load.\nMake sure the `assets/` folder (with `bg_48.png` and `bg_96.png`) is next to `index.html`."
  else
    "Processing failed. Open DevTools → Console to see the exact error, then share it here."

/-- The UI-observable batch state driven by `processOneItem`: per-item
statuses, the two progress counters, and the single global status banner
(`setStatus` writes one DOM element, so later writes replace earlier ones). -/
structure BatchUIState where
  statuses : List ItemStatus
  processedCount : ℕ
  failedCount : ℕ
  statusBanner : Option String
deriving DecidableEq, Repr

/-- `processOneItem`'s effect on the batch state for one item, driven by
the outcome of that item's pipeline (`ok` = decode+remove+encode succeeded,
`error e` = some stage threw `e`): the `try/catch` marks the item
`completed` or `error`, bumps exactly one counter, and on failure rewrites
the single global banner. -/
def processOneOutcome (st : BatchUIState) (out : Except String ℕ) : BatchUIState :=
  match out with
  | Except.ok _ =>
      { st with
        statuses := st.statuses ++ [ItemStatus.completed]
        processedCount := st.processedCount + 1 }
  | Except.error e =>
      { st with
        statuses := st.statuses ++ [ItemStatus.error]
        failedCount := st.failedCount + 1
        statusBanner := some ( "Some images failed.\n\n" ++ explainError e ) }

/-- A batch run: every queued item is driven through `processOneItem`
exactly once (the worker loop of `handleFiles`), the `catch` confining each
failure to its own item. -/
def runBatchModel (outcomes : List (Except String ℕ)) : BatchUIState :=
  outcomes.foldl processOneOutcome ⟨[], 0, 0, none⟩

/-- The status an item ends in, given its pipeline outcome. -/
def statusOfOutcome : Except String ℕ → ItemStatus
  | Except.ok _ => ItemStatus.completed
  | Except.error _ => ItemStatus.error

/-- The single banner left after a run: the explanation of the last
failure, or the initial banner if no item failed. -/
def bannerAfter (acc : Option String) : List (Except String ℕ) → Option String
  | [] => acc
  | Except.ok _ :: rest => bannerAfter acc rest
  | Except.error e :: rest =>
      bannerAfter (some ( "Some images failed.\n\n" ++ explainError e )) rest

/-- Folding `processOneOutcome` from any starting state appends one final
status per item, adds one counter tick per item, and leaves the banner of
the last failure. -/
theorem runBatch_foldl_general (outcomes : List (Except String ℕ))
    (st : BatchUIState) :
    (outcomes.foldl processOneOutcome st).statuses
        = st.statuses ++ outcomes.map statusOfOutcome ∧
    (outcomes.foldl processOneOutcome st).processedCount
        + (outcomes.foldl processOneOutcome st).failedCount
        = st.processedCount + st.failedCount + outcomes.length ∧
    (outcomes.foldl processOneOutcome st).statusBanner
        = bannerAfter st.statusBanner outcomes := by
  induction outcomes generalizing st with
  | nil => simp [bannerAfter]
  | cons out rest ih =>
      cases out with
      | ok v =>
          have h := ih (processOneOutcome st (Except.ok v))
          refine ⟨?_, ?_, ?_⟩
          · rw [List.foldl_cons, h.1]
            simp [processOneOutcome, statusOfOutcome]
          · rw [List.foldl_cons]
            simp only [processOneOutcome]
            have h2 := h.2.1
            simp only [processOneOutcome] at h2
            simp only [List.length_cons]
            omega
          · rw [List.foldl_cons, h.2.2]
            simp [processOneOutcome, bannerAfter]
      | error e =>
          have h := ih (processOneOutcome st (Except.error e))
          refine ⟨?_, ?_, ?_⟩
          · rw [List.foldl_cons, h.1]
            simp [processOneOutcome, statusOfOutcome]
          · rw [List.foldl_cons]
            simp only [processOneOutcome]
            have h2 := h.2.1
            simp only [processOneOutcome] at h2
            simp only [List.length_cons]
            omega
          · rw [List.foldl_cons, h.2.2]
            simp [processOneOutcome, bannerAfter]

/-- Once a failure has set the banner, the banner stays set. -/
theorem bannerAfter_isSome (outcomes : List (Except String ℕ)) :
    ∀ acc, (bannerAfter acc outcomes).isSome
      ↔ (acc.isSome ∨ ∃ e, Except.error e ∈ outcomes) := by
  induction outcomes with
  | nil => intro acc; simp [bannerAfter]
  | cons out rest ih =>
      intro acc
      cases out with
      | ok v =>
          rw [bannerAfter, ih]
          constructor
          · rintro (h | ⟨e, he⟩)
            · exact Or.inl h
            · exact Or.inr ⟨e, List.mem_cons_of_mem _ he⟩
          · rintro (h | ⟨e, he⟩)
            · exact Or.inl h
            · rcases List.mem_cons.mp he with h' | h'
              · cases h'
              · exact Or.inr ⟨e, h'⟩
      | error e' =>
          rw [bannerAfter, ih]
          simp

/-- C6: one batch run drives every item to `completed` or `error` — a
throwing item only marks itself `error`, every other item is still
processed — the run is complete once the two counters sum to the item
count, and the failure diagnostic is surfaced as the single global banner
(present iff some item failed), not once per failed item. -/
theorem runBatch_isolates (outcomes : List (Except String ℕ)) :
    (runBatchModel outcomes).statuses = outcomes.map statusOfOutcome ∧
    (runBatchModel outcomes).processedCount + (runBatchModel outcomes).failedCount
        = outcomes.length ∧
    (∀ s ∈ (runBatchModel outcomes).statuses,
        s = ItemStatus.completed ∨ s = ItemStatus.error) ∧
    (runBatchModel outcomes).statusBanner = bannerAfter none outcomes ∧
    (((runBatchModel outcomes).statusBanner).isSome
        ↔ ∃ e, Except.error e ∈ outcomes) := by
  have h := runBatch_foldl_general outcomes ⟨[], 0, 0, none⟩
  refine ⟨by simpa using h.1, by simpa using h.2.1, ?_, by simpa using h.2.2, ?_⟩
  · intro s hs
    rw [(by simpa using h.1 : (runBatchModel outcomes).statuses
      = outcomes.map statusOfOutcome)] at hs
    obtain ⟨out, _, rfl⟩ := List.mem_map.mp hs
    cases out with
    | ok v => exact Or.inl rfl
    | error e => exact Or.inr rfl
  · rw [(by simpa using h.2.2 : (runBatchModel outcomes).statusBanner
      = bannerAfter none outcomes)]
    rw [bannerAfter_isSome]
    simp

/-- C6 witness: a middle item failing with message boom leaves the batch
with statuses completed/error/completed and the single summary banner. -/
theorem runBatch_isolates_witness :
    (runBatchModel [Except.ok 7, Except.error "boom" , Except.ok 9]).statuses
      = [ItemStatus.completed, ItemStatus.error, ItemStatus.completed] ∧
    (runBatchModel [Except.ok 7, Except.error "boom" , Except.ok 9]).statusBanner
      = some ( "Some images failed.\n\n" ++ explainError "boom" ) := by
  have h := runBatch_isolates [Except.ok 7, Except.error "boom" , Except.ok 9]
  exact ⟨h.1.trans (by rfl), h.2.2.2.1.trans (by rfl)⟩

/-- `getPngColorCountForQuality(q)` from `app.js`: 0 means do not quantize
(lossless export). -/
def getPngColorCountForQuality (q : ℚ) : ℕ :=
  if mkRat 999 1000 ≤ q then 0
  else if mkRat 85 100 ≤ q then 256
  else 192

/-- How the PNG branch of `exportResultBlob` produced its blob. -/
inductive PngBlob
  | lossless
  | quantized (colors : ℕ)
deriving DecidableEq, Repr

/-- Result of the PNG branch of `exportResultBlob`: the blob and the
optional non-fatal informational `setStatus` notice. -/
structure PngExportResult where
  blob : PngBlob
  notice : Option String
deriving DecidableEq, Repr

/-- The `mime === "image/png"` branch of `exportResultBlob(...)` from
`app.js`: clamp the quality into `[0,1]`, pick the color budget; budget 0
is a lossless `canvas.toBlob`; otherwise encode through `UPNG.encode` when
`window.UPNG` is loaded (`upngAvailable`), falling back to lossless with an
informational notice when the library is missing or its encoder throws or
returns null (`upngOutcome = error`). -/
def exportPngModel (quality : ℚ) (upngAvailable : Bool)
    (upngOutcome : Except String ℕ) : PngExportResult :=
  let q := max 0 (min 1 quality)
  let colors := getPngColorCountForQuality q
  if colors = 0 then
    ⟨PngBlob.lossless, none⟩
  else if ¬ upngAvailable then
    ⟨PngBlob.lossless,
      some "PNG compression library failed to load. Exporting lossless PNG instead."⟩
  else
    match upngOutcome with
    | Except.ok _ => ⟨PngBlob.quantized colors, none⟩
    | Except.error _ =>
        ⟨PngBlob.lossless,
          some "PNG compression failed for this image. Exporting lossless PNG instead."⟩

/-- C7: PNG at quality ≥ 0.999 is lossless with no quantization and no
notice; at quality < 0.999 it quantizes to 256 colors when quality ≥ 0.85
and 192 otherwise; and when the quantizing encoder is unavailable or
throws, the export falls back to lossless PNG, still produces a result,
and surfaces the non-fatal informational notice. -/
theorem exportPng_spec (q : ℚ) (avail : Bool) (out : Except String ℕ) :
    (mkRat 999 1000 ≤ q → exportPngModel q avail out = ⟨PngBlob.lossless, none⟩) ∧
    (q < mkRat 999 1000 →
      ((∀ n, out = Except.ok n → avail = true →
          exportPngModel q avail out
            = ⟨PngBlob.quantized (if mkRat 85 100 ≤ q then 256 else 192), none⟩) ∧
        (avail = false →
          exportPngModel q avail out = ⟨PngBlob.lossless,
            some "PNG compression library failed to load. Exporting lossless PNG instead."⟩) ∧
        (∀ e, out = Except.error e → avail = true →
          exportPngModel q avail out = ⟨PngBlob.lossless,
            some "PNG compression failed for this image. Exporting lossless PNG instead."⟩))) := by
  have h999 : (mkRat 999 1000 : ℚ) = 999/1000 := by rw [Rat.mkRat_eq_div]; norm_num
  have h85 : (mkRat 85 100 : ℚ) = 85/100 := by rw [Rat.mkRat_eq_div]; norm_num
  constructor
  · intro hq
    have hqc : mkRat 999 1000 ≤ max 0 (min 1 q) := by
      rw [h999] at hq ⊢
      rcases le_total q 1 with h1 | h1
      · rw [min_eq_right h1, max_eq_right (by linarith)]
        exact hq
      · rw [min_eq_left h1, max_eq_right (by norm_num)]
        norm_num
    simp only [exportPngModel, getPngColorCountForQuality]
    rw [if_pos hqc]
    rfl
  · intro hq
    have hq1 : q ≤ 1 := by
      rw [h999] at hq; linarith
    have hminq : min 1 q = q := min_eq_right hq1
    have hqc : ¬ mkRat 999 1000 ≤ max 0 (min 1 q) := by
      rw [h999] at hq ⊢
      rw [hminq]
      rw [not_le, max_lt_iff]
      exact ⟨by norm_num, hq⟩
    have hiff : (mkRat 85 100 ≤ max 0 (min 1 q)) ↔ (mkRat 85 100 ≤ q) := by
      rw [h85, hminq]
      constructor
      · intro h
        rcases le_max_iff.mp h with h' | h'
        · norm_num at h'
        · exact h'
      · intro h
        exact le_trans h (le_max_right 0 q)
    have hcolors : getPngColorCountForQuality (max 0 (min 1 q))
        = if mkRat 85 100 ≤ q then 256 else 192 := by
      rw [getPngColorCountForQuality, if_neg hqc]
      by_cases h : mkRat 85 100 ≤ q
      · rw [if_pos (hiff.mpr h), if_pos h]
      · rw [if_neg (fun hc => h (hiff.mp hc)), if_neg h]
    have hc0 : ¬ (getPngColorCountForQuality (max 0 (min 1 q)) = 0) := by
      rw [hcolors]
      by_cases h : mkRat 85 100 ≤ q
      · rw [if_pos h]; omega
      · rw [if_neg h]; omega
    refine ⟨?_, ?_, ?_⟩
    · intro n hout havail
      subst hout; subst havail
      simp only [exportPngModel]
      rw [if_neg hc0]
      simp only [not_true, if_neg, hcolors]
      simp
    · intro havail
      subst havail
      simp only [exportPngModel]
      rw [if_neg hc0]
      simp
    · intro e hout havail
      subst hout; subst havail
      simp only [exportPngModel]
      rw [if_neg hc0]
      simp

/-- C7 witness: quality 1/2 with a working encoder quantizes to 192 colors;
quality 1 is lossless; a missing library and a throwing encoder both fall
back to lossless with their notices. -/
theorem exportPng_spec_witness :
    exportPngModel (mkRat 1 2) true (Except.ok 0)
      = ⟨PngBlob.quantized 192, none⟩ ∧
    exportPngModel 1 true (Except.ok 0) = ⟨PngBlob.lossless, none⟩ ∧
    exportPngModel (mkRat 1 2) false (Except.ok 0) = ⟨PngBlob.lossless,
      some "PNG compression library failed to load. Exporting lossless PNG instead."⟩ ∧
    exportPngModel (mkRat 1 2) true (Except.error "enc" ) = ⟨PngBlob.lossless,
      some "PNG compression failed for this image. Exporting lossless PNG instead."⟩ := by
  have hlt : (mkRat 1 2 : ℚ) < mkRat 999 1000 := by decide
  have h85 : ¬ ((mkRat 85 100 : ℚ) ≤ mkRat 1 2) := by decide
  refine ⟨?_, ?_, ?_, ?_⟩
  · have h := ((exportPng_spec (mkRat 1 2) true (Except.ok 0)).2 hlt).1 0 rfl rfl
    rw [if_neg h85] at h
    exact h
  · exact (exportPng_spec 1 true (Except.ok 0)).1 (by decide)
  · exact ((exportPng_spec (mkRat 1 2) false (Except.ok 0)).2 hlt).2.1 rfl
  · exact ((exportPng_spec (mkRat 1 2) true (Except.error "enc" )).2 hlt).2.2 "enc" rfl rfl

/-- Resource events of one item's lifecycle: a successful `fileToImage`
decode, issuing a result blob URL (`URL.createObjectURL`) and revoking one
(`URL.revokeObjectURL`). -/
inductive ResourceEvent
  | decoded
  | issued (url : ℕ)
  | revoked (url : ℕ)
deriving DecidableEq, Repr

/-- The revoke the code performs when a previous `item.resultUrl` exists. -/
def revokeEvents : Option ℕ → List ResourceEvent
  | some u => [ResourceEvent.revoked u]
  | none => []

/-- The tail of `processOneItem` after the image is available: on export
success, revoke the previous result URL and only then store the freshly
issued one (`c`); on export failure the `catch` marks the item `error` and
leaves the URL in place. -/
def finishItem (it : BatchItem) (c : ℕ) (exportOk : Bool)
    (evs : List ResourceEvent) : BatchItem × List ResourceEvent × ℕ :=
  if exportOk then
    ({ it with
        status := ItemStatus.completed
        resultBlob := some c
        resultUrl := some c },
      evs ++ revokeEvents it.resultUrl ++ [ResourceEvent.issued c], c + 1)
  else ({ it with status := ItemStatus.error }, evs, c)

/-- One `processOneItem` run over one item:
`const img = item.originalImg || (await fileToImage(item.file))` reuses the
cached decode; a fresh decode is attempted only when the cache is empty,
and on success is cached (`item.originalImg = img`) before the export. -/
def processItemStep (it : BatchItem) (c : ℕ) (decodeOk exportOk : Bool) :
    BatchItem × List ResourceEvent × ℕ :=
  match it.originalImg with
  | none =>
      if decodeOk then
        finishItem { it with originalImg := some 0 } c exportOk
          [ResourceEvent.decoded]
      else ({ it with status := ItemStatus.error }, [], c)
  | some _ => finishItem it c exportOk []

/-- The per-item reset of `reprocessCurrentBatch`: back to `queued`, the
previous result URL revoked and cleared, the decoded image kept. -/
def resetItemStep (it : BatchItem) : BatchItem × List ResourceEvent :=
  ({ it with
      status := ItemStatus.queued
      resultUrl := none
      resultBlob := none },
    revokeEvents it.resultUrl)

/-- One scheduling event for a single item: a full `processOneItem` run
(with the decode / export outcomes the environment would produce), or the
per-item reset at the start of `reprocessCurrentBatch`. -/
inductive ItemOp
  | run (decodeOk exportOk : Bool)
  | reset
deriving DecidableEq, Repr

/-- Runs a sequence of item operations, collecting the item state, the
concatenated resource trace, and the URL counter. -/
def runItemOps : BatchItem → ℕ → List ItemOp → BatchItem × List ResourceEvent × ℕ
  | it, c, [] => (it, [], c)
  | it, c, ItemOp.run dOk eOk :: ops =>
      let step := processItemStep it c dOk eOk
      let rest := runItemOps step.1 step.2.2 ops
      (rest.1, step.2.1 ++ rest.2.1, rest.2.2)
  | it, c, ItemOp.reset :: ops =>
      let step := resetItemStep it
      let rest := runItemOps step.1 c ops
      (rest.1, step.2 ++ rest.2.1, rest.2.2)

/-- One step of the resource-trace validity check, carrying the currently
live (issued and unrevoked) URL: issuing over a live URL, or revoking
anything but the live URL, is a violation. -/
def traceStep : Option ℕ → ResourceEvent → Option (Option ℕ)
  | live, ResourceEvent.decoded => some live
  | none, ResourceEvent.issued u => some (some u)
  | some _, ResourceEvent.issued _ => none
  | some v, ResourceEvent.revoked u => if u = v then some none else none
  | none, ResourceEvent.revoked _ => none

/-- Checks a whole resource trace; `some live` is the live URL after it,
`none` means some previously issued URL was replaced without having been
revoked first (or a dead URL was revoked). -/
def runTrace : Option ℕ → List ResourceEvent → Option (Option ℕ)
  | live, [] => some live
  | live, e :: es =>
      match traceStep live e with
      | some live' => runTrace live' es
      | none => none

/-- Number of successful decodes in a trace. -/
def decodedCount (tr : List ResourceEvent) : ℕ :=
  (tr.filter (fun e => e == ResourceEvent.decoded)).length

/-- `runTrace` composes over trace concatenation. -/
theorem runTrace_append (tr₁ tr₂ : List ResourceEvent) :
    ∀ live, runTrace live (tr₁ ++ tr₂)
      = (runTrace live tr₁).bind (fun l => runTrace l tr₂) := by
  induction tr₁ with
  | nil => intro live; simp [runTrace]
  | cons e es ih =>
      intro live
      rw [List.cons_append]
      cases h : traceStep live e with
      | some l' => simp [runTrace, h, ih]
      | none => simp [runTrace, h]

/-- `decodedCount` adds over trace concatenation. -/
theorem decodedCount_append (tr₁ tr₂ : List ResourceEvent) :
    decodedCount (tr₁ ++ tr₂) = decodedCount tr₁ + decodedCount tr₂ := by
  simp [decodedCount, List.filter_append]

/-- One `processOneItem` run keeps the trace valid, decodes exactly when
the cache was empty and the decode succeeds, and ends with an empty cache
only when it began with one and the decode failed. -/
theorem processItemStep_facts (it : BatchItem) (c : ℕ) (dOk eOk : Bool) :
    runTrace it.resultUrl (processItemStep it c dOk eOk).2.1
        = some ((processItemStep it c dOk eOk).1.resultUrl) ∧
    decodedCount (processItemStep it c dOk eOk).2.1
        = (if it.originalImg = none ∧ dOk = true then 1 else 0) ∧
    ((processItemStep it c dOk eOk).1.originalImg = none
        ↔ (it.originalImg = none ∧ dOk = false)) := by
  rcases it with ⟨file, name, status, oimg, rblob, rurl⟩
  cases oimg <;> cases dOk <;> cases eOk <;> cases rurl <;>
    simp [processItemStep, finishItem, revokeEvents, runTrace, traceStep, decodedCount]

/-- The reset of `reprocessCurrentBatch` revokes exactly the live URL,
decodes nothing, and keeps the cached decode. -/
theorem resetItemStep_facts (it : BatchItem) :
    runTrace it.resultUrl (resetItemStep it).2
        = some ((resetItemStep it).1.resultUrl) ∧
    decodedCount (resetItemStep it).2 = 0 ∧
    (resetItemStep it).1.originalImg = it.originalImg := by
  rcases it with ⟨file, name, status, oimg, rblob, rurl⟩
  cases rurl <;>
    simp [resetItemStep, revokeEvents, runTrace, traceStep, decodedCount]

/-- Invariant of the item lifecycle: starting from any state, the trace of
any op sequence is valid relative to the item's live URL, and at most one
successful decode occurs when the cache starts empty (none at all when it
starts full). -/
theorem runItemOps_invariant (ops : List ItemOp) :
    ∀ (it : BatchItem) (c : ℕ),
      runTrace it.resultUrl (runItemOps it c ops).2.1
          = some ((runItemOps it c ops).1.resultUrl) ∧
      decodedCount (runItemOps it c ops).2.1
        ≤ (if it.originalImg = none then 1 else 0) := by
  induction ops with
  | nil =>
      intro it c
      refine ⟨rfl, ?_⟩
      have h0 : decodedCount (runItemOps it c []).2.1 = 0 := rfl
      rw [h0]
      split <;> omega
  | cons op ops ih =>
      intro it c
      cases op with
      | run dOk eOk =>
          have hf := processItemStep_facts it c dOk eOk
          have hih := ih (processItemStep it c dOk eOk).1 (processItemStep it c dOk eOk).2.2
          simp only [runItemOps]
          rw [runTrace_append, hf.1, Option.some_bind, decodedCount_append, hf.2.1]
          refine ⟨hih.1, ?_⟩
          have hrest := hih.2
          by_cases ho : it.originalImg = none
          · cases dOk with
            | true =>
                rw [if_pos ⟨ho, rfl⟩, if_pos ho]
                have : ¬ ((processItemStep it c true eOk).1.originalImg = none) := by
                  rw [hf.2.2]
                  rintro ⟨_, h⟩
                  cases h
                rw [if_neg this] at hrest
                omega
            | false =>
                rw [if_neg (by rintro ⟨_, h⟩; cases h), if_pos ho]
                have : (processItemStep it c false eOk).1.originalImg = none := by
                  rw [hf.2.2]; exact ⟨ho, rfl⟩
                rw [if_pos this] at hrest
                omega
          · rw [if_neg (by rintro ⟨h, _⟩; exact ho h), if_neg ho]
            have : ¬ ((processItemStep it c dOk eOk).1.originalImg = none) := by
              rw [hf.2.2]
              rintro ⟨h, _⟩
              exact ho h
            rw [if_neg this] at hrest
            omega
      | reset =>
          have hf := resetItemStep_facts it
          have hih := ih (resetItemStep it).1 c
          simp only [runItemOps]
          rw [runTrace_append, hf.1, Option.some_bind, decodedCount_append, hf.2.1]
          refine ⟨hih.1, ?_⟩
          have hrest := hih.2
          rw [hf.2.2] at hrest
          omega

/-- C8: for a freshly created `BatchItem`, across any sequence of runs and
reprocess-resets, the item's file is successfully decoded at most once (the
cached image is reused on every re-run), and the resource trace is valid:
every previously issued output blob URL is revoked before a new one is
issued in its place. -/
theorem itemLifecycle_spec (file : JSFile) (ops : List ItemOp) :
    decodedCount (runItemOps (mkBatchItem file) 0 ops).2.1 ≤ 1 ∧
    runTrace none (runItemOps (mkBatchItem file) 0 ops).2.1
      = some ((runItemOps (mkBatchItem file) 0 ops).1.resultUrl) := by
  have h := runItemOps_invariant ops (mkBatchItem file) 0
  constructor
  · refine le_trans h.2 ?_
    simp [mkBatchItem]
  · have h1 := h.1
    simpa [mkBatchItem] using h1

/-- The scheduler state of one batch run: the shared cursor the two workers
pull from (`let cursor = 0` in `handleFiles`), whether each worker's loop
has exited, and the indices taken so far, in take order. -/
structure SchedState where
  cursor : ℕ
  halted1 : Bool
  halted2 : Bool
  taken : List ℕ
deriving DecidableEq, Repr

/-- One loop iteration of a worker (`true` picks worker 1): the check
`cursor < batchItems.length` and `const i = cursor++` run synchronously
with no suspension point between them (the only `await` comes after the
take), so check-and-take is one atomic step; a worker whose check fails
exits its loop. -/
def schedStep (n : ℕ) (st : SchedState) (w : Bool) : SchedState :=
  if (if w then st.halted1 else st.halted2) then st
  else if st.cursor < n then
    { st with
      cursor := st.cursor + 1
      taken := st.taken ++ [st.cursor] }
  else if w then { st with halted1 := true }
  else { st with halted2 := true }

/-- The two workers of one run under an arbitrary interleaving: the
schedule picks which worker performs its next loop iteration. -/
def runSched (n : ℕ) (sched : List Bool) : SchedState :=
  sched.foldl (schedStep n) ⟨0, false, false, []⟩

/-- The scheduler invariant: indices taken so far are exactly
`0, …, cursor-1`, the cursor never passes the item count, and a worker only
halts once the cursor is exhausted. -/
def schedInv (n : ℕ) (st : SchedState) : Prop :=
  st.taken = List.range st.cursor ∧ st.cursor ≤ n ∧
    (st.halted1 = true → st.cursor = n) ∧ (st.halted2 = true → st.cursor = n)

/-- Every single worker iteration preserves the scheduler invariant. -/
theorem schedStep_inv (n : ℕ) (st : SchedState) (w : Bool)
    (h : schedInv n st) : schedInv n (schedStep n st w) := by
  obtain ⟨ht, hc, h1, h2⟩ := h
  unfold schedStep schedInv
  by_cases hw : (if w then st.halted1 else st.halted2) = true
  · rw [if_pos hw]
    exact ⟨ht, hc, h1, h2⟩
  · rw [if_neg hw]
    by_cases hlt : st.cursor < n
    · rw [if_pos hlt]
      dsimp only
      refine ⟨by rw [ht, List.range_succ], by omega, ?_, ?_⟩
      · intro hh
        exact absurd (h1 hh) (by omega)
      · intro hh
        exact absurd (h2 hh) (by omega)
    · rw [if_neg hlt]
      cases w
      · rw [if_neg (by simp)]
        dsimp only
        exact ⟨ht, hc, fun hh => h1 hh, fun _ => by omega⟩
      · rw [if_pos rfl]
        dsimp only
        exact ⟨ht, hc, fun _ => by omega, fun hh => h2 hh⟩

/-- The invariant is preserved along any schedule. -/
theorem sched_foldl_inv (n : ℕ) (sched : List Bool) :
    ∀ st, schedInv n st → schedInv n (sched.foldl (schedStep n) st) := by
  induction sched with
  | nil => intro st h; exact h
  | cons w sc ih =>
      intro st h
      rw [List.foldl_cons]
      exact ih _ (schedStep_inv n st w h)

/-- C9: for every interleaving of the two workers pulling from the shared
cursor, the taken indices are exactly `0, …, cursor-1` in order — no item
taken twice, none skipped — the cursor never passes the item count, and
once both worker loops have exited every one of the `n` queued items has
been taken exactly once. -/
theorem sched_exactly_once (n : ℕ) (sched : List Bool) :
    (runSched n sched).taken = List.range (runSched n sched).cursor ∧
    (runSched n sched).cursor ≤ n ∧
    ((runSched n sched).halted1 = true → (runSched n sched).halted2 = true →
      (runSched n sched).taken = List.range n) := by
  have h0 : schedInv n ⟨0, false, false, []⟩ := by
    refine ⟨rfl, Nat.zero_le n, ?_, ?_⟩ <;> intro h <;> simp at h
  have h := sched_foldl_inv n sched _ h0
  obtain ⟨ht, hc, h1, h2⟩ := h
  refine ⟨ht, hc, ?_⟩
  intro hh1 hh2
  show (List.foldl (schedStep n) ⟨0, false, false, []⟩ sched).taken = List.range n
  rw [ht, h1 hh1]

/-- C9 witness: three items under the interleaving worker1, worker1,
worker2, worker1, worker2 are taken exactly once each in order, and once
both workers halt all three have been processed. -/
theorem sched_exactly_once_witness :
    (runSched 3 [true, true, false, true, false]).taken = [0, 1, 2] ∧
    (runSched 3 [true, true, false, true, false]).cursor = 3 := by
  have h := sched_exactly_once 3 [true, true, false, true, false]
  refine ⟨?_, by decide⟩
  have h3 := h.2.2 (by decide) (by decide)
  rw [h3]
  decide

/-- The global mutable state `app.js` shares across batch runs: the
identity (generation) and length of the current global `batchItems` array,
the statuses of the current run's items, the global `processedCount` and
`failedCount`, each run's local `cursor` (a `handleFiles` local, shared by
that run's two workers), and the suspended `processOneItem` calls as
`(worker run, array generation, item index)`. -/
structure GlobalState where
  curGen : ℕ
  itemsLen : ℕ
  statuses : List ItemStatus
  processedCount : ℕ
  failedCount : ℕ
  cursors : ℕ → ℕ
  inflight : List (ℕ × ℕ × ℕ)

/-- Cross-run events of `app.js`.  `startBatch n`: `handleFiles` accepts a
new batch — `resetUI()` zeroes the counters and drops the previous items,
then the fresh array is installed and its workers spawned.  `workerTake r`:
a worker spawned by run `r` runs its loop head — it reads its run's local
`cursor` but the *global* `batchItems`, so the item comes from the current
array whatever run the worker belongs to.  `finishOk r g i`: a suspended
`processOneItem` resumes and completes — it increments the *global*
`processedCount` and marks its item `completed`, which is visible in the
current statuses exactly when the item belongs to the current array. -/
inductive GlobalOp
  | startBatch (n : ℕ)
  | workerTake (run : ℕ)
  | finishOk (run gen idx : ℕ)

/-- One step of the cross-run machine, mirroring `handleFiles`,
`resetUI` and `processOneItem` on the shared globals. -/
def globalStep (st : GlobalState) : GlobalOp → GlobalState
  | GlobalOp.startBatch n =>
      { curGen := st.curGen + 1
        itemsLen := n
        statuses := List.replicate n ItemStatus.queued
        processedCount := 0
        failedCount := 0
        cursors := Function.update st.cursors (st.curGen + 1) 0
        inflight := st.inflight }
  | GlobalOp.workerTake run =>
      if st.cursors run < st.itemsLen then
        { st with
          cursors := Function.update st.cursors run (st.cursors run + 1)
          inflight := st.inflight ++ [(run, st.curGen, st.cursors run)] }
      else st
  | GlobalOp.finishOk run gen idx =>
      if (run, gen, idx) ∈ st.inflight then
        { st with
          inflight := st.inflight.erase (run, gen, idx)
          processedCount := st.processedCount + 1
          statuses :=
            if gen = st.curGen then st.statuses.set idx ItemStatus.completed
            else st.statuses }
      else st

/-- The pristine state before any batch. -/
def initGlobal : GlobalState := ⟨0, 0, [], 0, 0, fun _ => 0, []⟩

/-- A real interleaving: run 1 starts with one item, its worker takes item
0 and suspends in `processOneItem`; the user starts a new one-item batch
(run 2), which resets all state; then the stale run-1 worker resumes and
completes. -/
def staleWorkerTrace : List GlobalOp :=
  [GlobalOp.startBatch 1, GlobalOp.workerTake 1, GlobalOp.startBatch 1,
    GlobalOp.finishOk 1 1 0]

/-- C10 (demonstration of the code bug): after the stale run-1 worker
resumes, the *new* run's `processedCount` is already 1 even though the new
run's only item is still queued — the stale worker of the superseded run
wrote into the newer run's counters instead of aborting, because worker
closures share the global counters and `batchItems`. -/
theorem staleWorker_corrupts_counters :
    (staleWorkerTrace.foldl globalStep initGlobal).processedCount = 1 ∧
    (staleWorkerTrace.foldl globalStep initGlobal).statuses = [ItemStatus.queued] ∧
    (staleWorkerTrace.foldl globalStep initGlobal).curGen = 2 := by
  refine ⟨rfl, rfl, rfl⟩

end GWR
